import Mathlib

/-!
Shallow embedding of the dice module of the Denedé dice-rolling bot
(`src/dice.rs`), together with theorems checking the repository's
natural-language specification against the code.

Modelling conventions:
* Rust `u16` / `i16` / `i32` values are `Nat` / `Int` with explicit
  wrap-around (`% 2^w`) where the source can overflow; arithmetic overflow
  follows release-mode semantics (wrapping), while `assert!` failures,
  out-of-bounds indexing and `unwrap` on `None` — which abort in every build
  profile — are modelled as the `RollError.panic` outcome.
* The external randomness oracle (`call_randomorg`) is modelled by an
  environment `Env`: request number `i` is either served by the remote
  oracle (`Env.oracle i = some f`, values `f 0, f 1, …`, arbitrary naturals,
  since the source accepts any `u16` reply without range-checking it) or
  fails (`none`), in which case the local PRNG fallback produces values that
  are in the requested range by the contract of `rand::random_range`
  (modelled as `min + raw % (max + 1 - min)`).  Replies are modelled as
  having the requested length; the source asserts this at each auxiliary
  request.
* The unbounded `loop`s of `open_ended` take a fuel parameter; running out
  of fuel is the `RollError.diverge` outcome (the source would keep
  looping).
-/

deriving instance DecidableEq for Except

namespace Denede

/-! ### Machine-integer helpers (release-mode wrap-around) -/

/-- Addition result reduced to `u16` range. -/
def u16wrap (n : Nat) : Nat := n % 65536

/-- `a - b` on `u16`, wrapping around on underflow. -/
def u16sub (a b : Nat) : Nat := (a % 65536 + (65536 - b % 65536)) % 65536

/-- Reinterpret a `u16` bit pattern as an `i16` (Rust `as i16`). -/
def toI16 (n : Nat) : Int :=
  if n % 65536 < 32768 then (n % 65536 : Int) else (n % 65536 : Int) - 65536

/-- Wrap an integer into `i16` range (overflow of `i16` operations). -/
def i16wrap (z : Int) : Int := (z + 32768) % 65536 - 32768

/-- Reinterpret an `i16` value as a `u16` (Rust `as u16`). -/
def i16asU16 (z : Int) : Nat := (z % 65536).toNat

/-- Wrap an integer into `i32` range (overflow of `i32` operations). -/
def wrap32 (z : Int) : Int := (z + 2147483648) % 4294967296 - 2147483648

/-! ### Error model (`ErrorKind` from `dice.rs`) -/

/-- The error kinds of the dice module, mirroring `enum ErrorKind`. -/
inductive ErrorKind
  | RandomOrgOutOfRange
  | RandomOrgInvalidResponse
  | RandomOrgUnreachable
  | DiceStringInvalidCharacters
  | DiceStringTooManyParts
  | DiceStringInvalidOp
  | DiceStringNumberTooLarge
  | DiceAmountTooLarge
  | DiceTooManySides
  | DiceExprDivisionByZero
  | DiceExprInvalidArgument
  | DiceExprInvalidSides
  | CompoundDiceExprInvalidOpStructure
  | CompoundDiceMultipleRollErrors
deriving DecidableEq

/-- Outcome tags for embedded Rust code: a returned `DiceError` (`e`),
an aborting panic (`panic`: failed `assert!`, out-of-bounds index, `unwrap`),
or non-termination surfaced by fuel exhaustion (`diverge`). -/
inductive RollError
  | panic
  | diverge
  | e (k : ErrorKind)
deriving DecidableEq

/-! ### The randomness environment and `call_randomorg` -/

/-- Behaviour of the randomness source across one evaluation: for the `i`-th
request, `oracle i = some f` means RANDOM.ORG answered with values
`f 0, f 1, …` (arbitrary `u16`s: the source never range-checks them), and
`oracle i = none` means the request failed and the local PRNG fallback is
used, drawing raw values `rng i 0, rng i 1, …`. -/
structure Env where
  oracle : Nat → Option (Nat → Nat)
  rng : Nat → Nat → Nat

/-- Model of `call_randomorg(num, max, min)`: the `i`-th randomness request.
Returns the value sequence and the `truly_random` provenance flag.
The fallback mirrors `rng.random_range(min..=max)`, which always yields
values inside the requested inclusive range. -/
def call_randomorg (num max min : Nat) (env : Env) (i : Nat) : List Nat × Bool :=
  match env.oracle i with
  | some f => ((List.range num).map f, true)
  | none => ((List.range num).map (fun j => min + env.rng i j % (max + 1 - min)), false)

/-! ### Data model: `DieKind`, `Dice`, `DiceResult` -/

/-- The die-operation kinds, mirroring `enum DieKind`. -/
inductive DieKind
  | Regular
  | Drop
  | Keep
  | Reroll
  | RerollOnceAndKeep
  | RerollOnceAndChoose
  | Success
  | Explode
  | ExplodingSuccess
  | Open
  | DropHigh
  | KeepLow
  | UpperBound
  | LowerBound
  | AddUpperBound
  | AddLowerBound
  | SubtractUpperBound
  | SubtractLowerBound
  | OpenEnded
  | OpenEndedImplicit
deriving DecidableEq

/-- A parsed single dice sub-expression, mirroring `struct Dice`. -/
structure Dice where
  amount : Nat
  sides : Nat
  kind : DieKind
  args : List Nat
deriving DecidableEq

/-- The result of rolling one `Dice`, mirroring `struct DiceResult`. -/
structure DiceResult where
  seq : List Nat
  truly_random : Bool
  success_threshold : Option Nat
deriving DecidableEq

/-- `DiceResult::zero()`: rolling zero dice.  Note that the source sets
`truly_random` to `false` here. -/
def DiceResult.zero : DiceResult := ⟨[], false, none⟩

/-- Rust `Vec` indexing `v[i]`: out of bounds aborts (`panic`). -/
def getIdx (l : List Nat) (i : Nat) : Except RollError Nat :=
  match l[i]? with
  | some v => .ok v
  | none => .error .panic

/-! ### Roll engine, per-kind operations.

Each function takes the environment and the index `i` of the next randomness
request, and returns the `DiceResult` together with the index after its last
request. -/

/-- `Dice::regular`: regular roll and reroll. -/
def Dice.regular (d : Dice) (env : Env) (i : Nat) : Except RollError (DiceResult × Nat) :=
  match (if d.kind = DieKind.Reroll then getIdx d.args 0 else .ok 1) with
  | .error err => .error err
  | .ok threshold =>
    if d.sides < threshold then .error (.e .DiceExprInvalidArgument)
    else if d.sides = 1 then .ok (⟨[d.amount], true, none⟩, i)
    else
      let r := call_randomorg d.amount d.sides threshold env i
      .ok (⟨r.1, r.2, none⟩, i + 1)

/-- `Dice::success`. -/
def Dice.success (d : Dice) (env : Env) (i : Nat) : Except RollError (DiceResult × Nat) :=
  match getIdx d.args 0 with
  | .error err => .error err
  | .ok threshold =>
    if d.sides < threshold then .ok (⟨[0], true, none⟩, i)
    else if d.sides = 1 then .ok (⟨[d.amount], true, none⟩, i)
    else
      let r := call_randomorg d.amount d.sides 1 env i
      .ok (⟨r.1, r.2, some threshold⟩, i + 1)

/-- The walk of `Dice::drop` over the rolled sequence: values meeting the
drop condition are pushed onto the *returned* vector `dropped_seq`, other
values bump the `dropped` counter, and the walk `break`s as soon as
`dropped == drop_count` (checked after every element). -/
def dropWalk (isHigh : Bool) (threshold dropCount : Nat) : List Nat → Nat → List Nat
  | [], _ => []
  | v :: vs, dropped =>
    if (if isHigh then threshold ≤ v else v ≤ threshold) then
      v :: (if dropped = dropCount then [] else dropWalk isHigh threshold dropCount vs dropped)
    else
      if dropped + 1 = dropCount then [] else dropWalk isHigh threshold dropCount vs (dropped + 1)

/-- `Dice::drop` (Drop and DropHigh).  `sort_unstable` on naturals produces
the unique weakly-increasing reordering, modelled with `List.insertionSort`.
The pivot lookups reproduce the source's `usize` indexing: `drop_count - 1`
underflows (and so aborts on the subsequent index) when `drop_count = 0`,
and `len - drop_count` underflows when `drop_count > len`. -/
def Dice.drop (d : Dice) (env : Env) (i : Nat) : Except RollError (DiceResult × Nat) :=
  match getIdx d.args 0 with
  | .error err => .error err
  | .ok dropCount =>
    if d.amount < dropCount then .error (.e .DiceExprInvalidArgument)
    else if d.sides = 1 then .ok (⟨[d.amount - dropCount], true, none⟩, i)
    else
      let seq := (call_randomorg d.amount d.sides 1 env i).1
      let sorted := List.insertionSort (· ≤ ·) seq
      match (if d.kind = DieKind.DropHigh then
               (if sorted.length < dropCount then .error .panic
                else getIdx sorted (sorted.length - dropCount))
             else
               (if dropCount = 0 then .error .panic else getIdx sorted (dropCount - 1))) with
      | .error err => .error err
      | .ok threshold =>
        .ok (⟨dropWalk (d.kind = DieKind.DropHigh) threshold dropCount seq 0,
              (call_randomorg d.amount d.sides 1 env i).2, none⟩, i + 1)

/-- The walk of `Dice::keep`: values meeting the keep condition are pushed
and counted, and the walk `break`s as soon as `kept == keep_count` (checked
after every element). -/
def keepWalk (cond : Nat → Bool) (keepCount : Nat) : List Nat → Nat → List Nat
  | [], _ => []
  | v :: vs, kept =>
    if cond v then
      v :: (if kept + 1 = keepCount then [] else keepWalk cond keepCount vs (kept + 1))
    else
      if kept = keepCount then [] else keepWalk cond keepCount vs kept

/-- `Dice::keep` (Keep and KeepLow).  Pivot indexing as in `Dice.drop`. -/
def Dice.keep (d : Dice) (env : Env) (i : Nat) : Except RollError (DiceResult × Nat) :=
  match getIdx d.args 0 with
  | .error err => .error err
  | .ok keepCount =>
    if d.amount < keepCount then .error (.e .DiceExprInvalidArgument)
    else if d.sides = 1 then .ok (⟨[keepCount], true, none⟩, i)
    else
      let seq := (call_randomorg d.amount d.sides 1 env i).1
      let sorted := List.insertionSort (· ≤ ·) seq
      match (if d.kind = DieKind.KeepLow then
               (if keepCount = 0 then .error .panic else getIdx sorted (keepCount - 1))
             else
               (if sorted.length < keepCount then .error .panic
                else getIdx sorted (sorted.length - keepCount))) with
      | .error err => .error err
      | .ok threshold =>
        let cond : Nat → Bool := fun v =>
          if d.kind = DieKind.KeepLow then decide (v ≤ threshold) else decide (threshold ≤ v)
        .ok (⟨keepWalk cond keepCount seq 0,
              (call_randomorg d.amount d.sides 1 env i).2, none⟩, i + 1)

/-- The replacement walk of `Dice::reroll_once`: each value `< threshold`
consumes the next replacement (`unwrap` aborts if the replacement iterator
is exhausted). -/
def rerollWalk (choose : Bool) (threshold : Nat) :
    List Nat → List Nat → Except RollError (List Nat)
  | [], _ => .ok []
  | x :: xs, rs =>
    if x < threshold then
      match rs with
      | [] => .error .panic
      | r :: rs2 =>
        match rerollWalk choose threshold xs rs2 with
        | .error err => .error err
        | .ok rest => .ok ((if choose then Nat.max x r else r) :: rest)
    else
      match rerollWalk choose threshold xs rs with
      | .error err => .error err
      | .ok rest => .ok (x :: rest)

/-- `Dice::reroll_once` (RerollOnceAndKeep and RerollOnceAndChoose). -/
def Dice.reroll_once (d : Dice) (env : Env) (i : Nat) : Except RollError (DiceResult × Nat) :=
  match getIdx d.args 0 with
  | .error err => .error err
  | .ok threshold =>
    if d.sides < threshold then .error (.e .DiceExprInvalidArgument)
    else if d.sides = 1 then .ok (⟨[d.amount], true, none⟩, i)
    else
      let r := call_randomorg d.amount d.sides 1 env i
      let rerollCount := r.1.countP (fun x => decide (x < threshold))
      if rerollCount = 0 then .ok (⟨r.1, r.2, none⟩, i + 1)
      else
        let r2 := call_randomorg rerollCount d.sides threshold env (i + 1)
        match rerollWalk (d.kind = DieKind.RerollOnceAndChoose) threshold r.1 r2.1 with
        | .error err => .error err
        | .ok resultSeq => .ok (⟨resultSeq, r.2 && r2.2, none⟩, i + 2)

/-- The `loop` of `Dice::explode`: while the previous batch contains dice
showing the maximum face and the depth limit is not reached, draw one new
die per maxed die and append the batch.  The fuel argument is
`limit - rerolls_done`, so fuel `0` is exactly the `rerolls_done >= limit`
exit. -/
def explodeLoop (sides : Nat) (env : Env) :
    Nat → List Nat → List Nat → Bool → Nat → List Nat × Bool × Nat
  | 0, seq, _, truly, i => (seq, truly, i)
  | fuel + 1, seq, last, truly, i =>
    let n := last.countP (fun x => decide (x = sides))
    if n = 0 then (seq, truly, i)
    else
      let r := call_randomorg n sides 1 env i
      explodeLoop sides env fuel (seq ++ r.1) r.1 (truly && r.2) (i + 1)

/-- `Dice::explode` (Explode and ExplodingSuccess). -/
def Dice.explode (d : Dice) (env : Env) (i : Nat) : Except RollError (DiceResult × Nat) :=
  match (if d.kind = DieKind.ExplodingSuccess then getIdx d.args 1 else .ok 0) with
  | .error err => .error err
  | .ok threshold0 =>
    if d.kind = DieKind.ExplodingSuccess ∧ d.sides < threshold0 then
      .error (.e .DiceExprInvalidArgument)
    else if d.sides = 1 then .error (.e .DiceExprInvalidSides)
    else
      let r := call_randomorg d.amount d.sides 1 env i
      match getIdx d.args 0 with
      | .error err => .error err
      | .ok limit =>
        let out := explodeLoop d.sides env limit r.1 r.1 r.2 (i + 1)
        if d.kind = DieKind.ExplodingSuccess then .ok (⟨out.1, out.2.1, some threshold0⟩, out.2.2)
        else .ok (⟨out.1, out.2.1, none⟩, out.2.2)

/-- The inner `while` of `Dice::open` for one die: the source compares the
*initial* value (`last_roll` is never updated), so a maxed die draws exactly
`limit` extra values, each added to the die with `u16` wrap-around. -/
def openDieLoop (sides : Nat) (env : Env) : Nat → Nat → Bool → Nat → Nat × Bool × Nat
  | 0, v, truly, i => (v, truly, i)
  | fuel + 1, v, truly, i =>
    let r := call_randomorg 1 sides 1 env i
    openDieLoop sides env fuel (u16wrap (v + r.1.headD 0)) (truly && r.2) (i + 1)

/-- One die of `Dice::open`. -/
def openDie (sides limit : Nat) (env : Env) (v : Nat) (truly : Bool) (i : Nat) :
    Nat × Bool × Nat :=
  if v = sides then openDieLoop sides env limit v truly i else (v, truly, i)

/-- The `for value in seq.iter_mut()` loop of `Dice::open`, threading the
provenance flag and the request counter. -/
def openAll (sides limit : Nat) (env : Env) : List Nat → Bool → Nat → List Nat × Bool × Nat
  | [], truly, i => ([], truly, i)
  | v :: vs, truly, i =>
    let a := openDie sides limit env v truly i
    let b := openAll sides limit env vs a.2.1 a.2.2
    (a.1 :: b.1, b.2.1, b.2.2)

/-- `Dice::open` (named `openRoll` because `open` is a Lean keyword). -/
def Dice.openRoll (d : Dice) (env : Env) (i : Nat) : Except RollError (DiceResult × Nat) :=
  if d.sides = 1 then .error (.e .DiceExprInvalidSides)
  else
    let r := call_randomorg d.amount d.sides 1 env i
    match getIdx d.args 0 with
    | .error err => .error err
    | .ok limit =>
      let out := openAll d.sides limit env r.1 r.2 (i + 1)
      .ok (⟨out.1, out.2.1, none⟩, out.2.2)

/-- `Dice::bounded` (the six bound variants).  `opN` is `0` for the plain
bounds, `1` for the Add variants, `2` for the Subtract variants.  All `i16`
casts and operations reproduce Rust `as` conversions and release-mode
wrap-around. -/
def Dice.bounded (d : Dice) (env : Env) (i : Nat) : Except RollError (DiceResult × Nat) :=
  let isUpper := d.kind = DieKind.UpperBound ∨ d.kind = DieKind.AddUpperBound ∨
    d.kind = DieKind.SubtractUpperBound
  let opN : Nat :=
    match d.kind with
    | .UpperBound | .LowerBound => 0
    | .AddUpperBound | .AddLowerBound => 1
    | _ => 2
  match (if opN = 0 then getIdx d.args 0 else getIdx d.args 1) with
  | .error err => .error err
  | .ok bRaw =>
    let bound : Int := toI16 bRaw
    match (if opN = 0 then .ok 0 else getIdx d.args 0) with
    | .error err => .error err
    | .ok mRaw =>
      let modifier : Int :=
        if opN = 0 then 0 else if opN = 1 then toI16 mRaw else i16wrap (-(toI16 mRaw))
      if d.sides = 1 then
        let inner : Int :=
          if isUpper then max (min bound (i16wrap (modifier + 1))) 0
          else max bound (i16wrap (modifier + 1))
        .ok (⟨[i16asU16 (i16wrap (toI16 d.amount * inner))], true, none⟩, i)
      else
        let r := call_randomorg d.amount d.sides 1 env i
        let seq2 := r.1.map (fun v =>
          if isUpper then i16asU16 (max (min (i16wrap (toI16 v + modifier)) bound) 0)
          else i16asU16 (max (i16wrap (toI16 v + modifier)) bound))
        .ok (⟨seq2, r.2, none⟩, i + 1)

/-- The do-while `loop` of `Dice::open_ended` for one die: draw a single
value, add it to (high trigger) or subtract it from (low trigger) the `u16`
accumulator with wrap-around, and stop once a draw is `< high`. -/
def oeLoop (sides high : Nat) (isLow : Bool) (env : Env) :
    Nat → Nat → Bool → Nat → Except RollError (Nat × Bool × Nat)
  | 0, _, _, _ => .error .diverge
  | fuel + 1, acc, truly, i =>
    let r := call_randomorg 1 sides 1 env i
    let v := r.1.headD 0
    let acc2 := if isLow then u16sub acc v else u16wrap (acc + v)
    if v < high then .ok (acc2, truly && r.2, i + 1)
    else oeLoop sides high isLow env fuel acc2 (truly && r.2) (i + 1)

/-- The per-die dispatch of `Dice::open_ended` over the initially rolled
sequence: values `≥ high` accumulate positively, values `≤ low` accumulate
negatively (with `u16` underflow), all others leave the entry at `0`. -/
def oeAll (sides low high fuel : Nat) (env : Env) :
    List Nat → Bool → Nat → Except RollError (List Nat × Bool × Nat)
  | [], truly, i => .ok ([], truly, i)
  | v :: vs, truly, i =>
    match (if high ≤ v then oeLoop sides high false env fuel 0 truly i
           else if v ≤ low then oeLoop sides high true env fuel 0 truly i
           else .ok (0, truly, i)) with
    | .error err => .error err
    | .ok (c, truly2, i2) =>
      match oeAll sides low high fuel env vs truly2 i2 with
      | .error err => .error err
      | .ok (rest, truly3, i3) => .ok (c :: rest, truly3, i3)

/-- `Dice::open_ended` (OpenEnded and OpenEndedImplicit).  The implicit
high bound `sides + 1 - low` is `u16` arithmetic. -/
def Dice.open_ended (fuel : Nat) (d : Dice) (env : Env) (i : Nat) :
    Except RollError (DiceResult × Nat) :=
  if d.sides = 1 then .error (.e .DiceExprInvalidSides)
  else
    match getIdx d.args 0 with
    | .error err => .error err
    | .ok low =>
      match (if d.kind = DieKind.OpenEnded then getIdx d.args 1
             else .ok (u16sub (u16wrap (d.sides + 1)) low)) with
      | .error err => .error err
      | .ok high =>
        if high ≤ low ∨ d.sides < high then .error (.e .DiceExprInvalidArgument)
        else
          let r := call_randomorg d.amount d.sides 1 env i
          match oeAll d.sides low high fuel env r.1 r.2 (i + 1) with
          | .error err => .error err
          | .ok out => .ok (⟨out.1, out.2.1, none⟩, out.2.2)

/-- `Dice::roll`: the zero short-circuit and the per-kind dispatch. -/
def Dice.roll (fuel : Nat) (d : Dice) (env : Env) (i : Nat) :
    Except RollError (DiceResult × Nat) :=
  if d.amount = 0 ∨ d.sides = 0 then .ok (DiceResult.zero, i)
  else
    match d.kind with
    | .Regular | .Reroll => d.regular env i
    | .Success => d.success env i
    | .Drop | .DropHigh => d.drop env i
    | .Keep | .KeepLow => d.keep env i
    | .RerollOnceAndKeep | .RerollOnceAndChoose => d.reroll_once env i
    | .Explode | .ExplodingSuccess => d.explode env i
    | .Open => d.openRoll env i
    | .UpperBound | .LowerBound | .AddUpperBound | .AddLowerBound
    | .SubtractUpperBound | .SubtractLowerBound => d.bounded env i
    | .OpenEnded | .OpenEndedImplicit => d.open_ended fuel env i

/-! ### The single-dice parser `Dice::parse`.

The regex machinery of the source reduces, on the guaranteed-alphanumeric
input, to splitting the text into maximal runs of digits and maximal runs of
letters: `\d+`-split yields the letter runs (`ids`), `\D+`-split yields the
digit runs (`numbers`), and `^\d+` matches the first run when it is made of
digits. -/

/-- ASCII lowercase letter test. -/
def isLowerAZ (c : Char) : Bool := 'a' ≤ c && c ≤ 'z'

/-- ASCII digit test (Rust `char::is_digit(10)`). -/
def isDigitC (c : Char) : Bool := '0' ≤ c && c ≤ '9'

/-- The `^[a-z0-9]+$` check of `Dice::parse`. -/
def alphanumOk (s : String) : Bool :=
  !s.data.isEmpty && s.data.all (fun c => isLowerAZ c || isDigitC c)

/-- Numeric value of a run of ASCII digits. -/
def digitsVal (cs : List Char) : Nat :=
  cs.foldl (fun a c => a * 10 + (c.toNat - 48)) 0

/-- Drop an optional leading `+` sign. -/
def stripPlus (cs : List Char) : List Char :=
  if cs.head? = some '+' then cs.tail else cs

/-- Rust `str::parse::<u16>()`: an optional leading `+`, then one or more
ASCII digits, value at most `65535`. -/
def rustParseU16 (s : String) : Option Nat :=
  if !(stripPlus s.data).isEmpty && (stripPlus s.data).all isDigitC then
    (if digitsVal (stripPlus s.data) ≤ 65535 then some (digitsVal (stripPlus s.data)) else none)
  else none

/-- Split a character list into maximal runs, each tagged with whether it is
a digit run (auxiliary: current run kind and reversed accumulator). -/
def splitRunsAux : List Char → Bool → List Char → List (Bool × String)
  | [], d, acc => [(d, String.mk acc.reverse)]
  | c :: cs, d, acc =>
    if isDigitC c = d then splitRunsAux cs d (c :: acc)
    else (d, String.mk acc.reverse) :: splitRunsAux cs (isDigitC c) [c]

/-- Split a character list into maximal digit/letter runs. -/
def splitRuns : List Char → List (Bool × String)
  | [] => []
  | c :: cs => splitRunsAux cs (isDigitC c) [c]

/-- Every string occurring in a key of `DICE_IDS_MAP` (the `valid_ids`
collection of `Dice::parse`). -/
def validIds : List String :=
  ["d", "k", "r", "rk", "rc", "s", "e", "es", "o", "dh", "kl", "u", "l", "a", "oel", "h", "oe"]

/-- The lookup in `DICE_IDS_MAP`: ordered tuple of op parts to `DieKind`. -/
def lookupKind : List String → Option DieKind
  | [] => some .Regular
  | ["d"] => some .Drop
  | ["k"] => some .Keep
  | ["r"] => some .Reroll
  | ["rk"] => some .RerollOnceAndKeep
  | ["rc"] => some .RerollOnceAndChoose
  | ["s"] => some .Success
  | ["e"] => some .Explode
  | ["e", "s"] => some .ExplodingSuccess
  | ["es"] => some .ExplodingSuccess
  | ["o"] => some .Open
  | ["dh"] => some .DropHigh
  | ["kl"] => some .KeepLow
  | ["u"] => some .UpperBound
  | ["l"] => some .LowerBound
  | ["a", "u"] => some .AddUpperBound
  | ["a", "l"] => some .AddLowerBound
  | ["s", "u"] => some .SubtractUpperBound
  | ["s", "l"] => some .SubtractLowerBound
  | ["oel", "h"] => some .OpenEnded
  | ["oe"] => some .OpenEndedImplicit
  | _ => none

/-- Parse each digit run as a `u16` (`DiceStringNumberTooLarge` on
overflow). -/
def parseNumbers : List String → Except RollError (List Nat)
  | [] => .ok []
  | s :: rest =>
    match rustParseU16 s with
    | none => .error (.e .DiceStringNumberTooLarge)
    | some n =>
      match parseNumbers rest with
      | .error err => .error err
      | .ok ns => .ok (n :: ns)

/-- Whether the text begins with a digit (the `^\d+` regex match). -/
def startsWithDigit (s : String) : Bool :=
  match s.data.head? with
  | some c => isDigitC c
  | none => false

/-- The dice-amount extraction of `Dice::parse`: first digit run when the
text starts with digits, `1` otherwise. -/
def parseAmountNum (startsByNumber : Bool) (numberStrs : List String) :
    Except RollError Nat :=
  if startsByNumber then
    match numberStrs.head? with
    | some s =>
      (match rustParseU16 s with
       | some n => .ok n
       | none => .error (.e .DiceStringNumberTooLarge))
    | none => .error .panic
  else .ok 1

/-- The default-sides push of `Dice::parse`: on an empty numbers list the
source asserts `!starts_by_number && specifies_sides` (a bare op string
such as `"kl"` aborts) and pushes `20`. -/
def defaultNumbers (startsByNumber specifiesSides : Bool) (numbers : List Nat) :
    Except RollError (List Nat) :=
  if numbers.isEmpty then
    (if !startsByNumber ∧ specifiesSides then .ok [20] else .error .panic)
  else .ok numbers

/-- The sides extraction of `Dice::parse`: the next number when the `d`
marker was present and a number remains, `20` otherwise; returns the sides
and the remaining numbers. -/
def takeSides (specifiesSides : Bool) (numbers : List Nat) : Nat × List Nat :=
  if specifiesSides ∧ ¬numbers.isEmpty then (numbers.headD 20, numbers.tail) else (20, numbers)

/-- The per-kind optional-argument backfill of `Dice::parse`. -/
def backfillArgs (kind : DieKind) (args : List Nat) : List Nat :=
  match kind with
  | .Explode | .Open => if args.length = 1 then args ++ [65535] else args
  | .ExplodingSuccess =>
    if args.length = 2 then args.take 1 ++ [65535] ++ args.drop 1 else args
  | _ => args

/-- The hard-limit checks at the end of `Dice::parse`:
`amount ≤ 50` (checked first) and `sides ≤ 1000`. -/
def limitCheck (amount sides : Nat) (kind : DieKind) (args : List Nat) :
    Except RollError Dice :=
  if 50 < amount then .error (.e .DiceAmountTooLarge)
  else if 1000 < sides then .error (.e .DiceTooManySides)
  else .ok ⟨amount, sides, kind, args⟩

/-- The alphabetic tokens of the text (the `\d+`-regex split, empties
dropped): the `ids` of `Dice::parse` before the `d` marker removal. -/
def idsOf (text : String) : List String :=
  (splitRuns text.data).filterMap (fun t => if t.1 then none else some t.2)

/-- The digit runs of the text (the `\D+`-regex split, empties dropped):
the `numbers` of `Dice::parse` before parsing. -/
def numberStrsOf (text : String) : List String :=
  (splitRuns text.data).filterMap (fun t => if t.1 then some t.2 else none)

/-- The op ids after removing the leading `d` marker when present. -/
def opIds (specifiesSides : Bool) (ids0 : List String) : List String :=
  if specifiesSides then ids0.tail else ids0

/-- The tail of `Dice::parse` after the numbers list is settled: drop the
already-processed amount, extract the sides, backfill the optional args and
run the hard-limit checks. -/
def parseTail (specifiesSides startsByNumber : Bool) (amount : Nat) (kind : DieKind)
    (numbers1 : List Nat) : Except RollError Dice :=
  limitCheck amount
    (takeSides specifiesSides (if startsByNumber then numbers1.tail else numbers1)).1
    kind
    (backfillArgs kind
      (takeSides specifiesSides (if startsByNumber then numbers1.tail else numbers1)).2)

/-- The op-string branch of `Dice::parse` (taken when the text is not a
bare integer), after `ids[0]` has been read. -/
def parseOps (text : String) (specifiesSides : Bool) : Except RollError Dice :=
  if 2 < (opIds specifiesSides (idsOf text)).length then
    .error (.e .DiceStringTooManyParts)
  else if (opIds specifiesSides (idsOf text)).any (fun id => !validIds.contains id) then
    .error (.e .DiceStringInvalidOp)
  else
    match lookupKind (opIds specifiesSides (idsOf text)) with
    | none => .error (.e .DiceStringInvalidOp)
    | some kind =>
      match parseAmountNum (startsWithDigit text) (numberStrsOf text) with
      | .error err => .error err
      | .ok amount =>
        match parseNumbers (numberStrsOf text) with
        | .error err => .error err
        | .ok numbers0 =>
          match defaultNumbers (startsWithDigit text) specifiesSides numbers0 with
          | .error err => .error err
          | .ok numbers1 =>
            if 4 < numbers1.length then .error .panic
            else parseTail specifiesSides (startsWithDigit text) amount kind numbers1

/-- `Dice::parse`.  Mirrors the source step by step; the `assert!`s and the
unchecked `ids[0]` index are the `panic` branches. -/
def Dice.parse (text : String) : Except RollError Dice :=
  if !alphanumOk text then .error (.e .DiceStringInvalidCharacters)
  else
    match rustParseU16 text with
    | some number => .ok ⟨number, 1, .Regular, []⟩
    | none =>
      match (idsOf text).head? with
      | none => .error .panic
      | some firstId => parseOps text (decide (firstId = "d"))

/-! ### Compound rolls: `DiceArithmeticOp`, `RollNumber`,
`CompoundDiceRoll::result`.

`CompoundDiceRoll::result` first awaits all sub-rolls (`join_all`, input
order preserved); the embedding takes that list of outcomes as input.
`f64` is modelled by `Rat` (the claims about the evaluator concern the fold
structure and the Int/Float promotion, not floating-point rounding). -/

/-- Mirrors `enum DiceArithmeticOp`. -/
inductive DiceArithmeticOp
  | Add
  | Subtract
  | Multiply
  | Divide
deriving DecidableEq

/-- Mirrors `enum RollNumber` (`Float` carried as an exact rational). -/
inductive RollNumber
  | Int (n : Int)
  | Float (q : Rat)
deriving DecidableEq

/-- The errors of a list of sub-roll outcomes, in order. -/
def rollErrors (rolls : List (Except ErrorKind DiceResult)) : List ErrorKind :=
  rolls.filterMap (fun r => match r with | .error err => some err | .ok _ => none)

/-- The successful sub-roll results, in order. -/
def rollOks (rolls : List (Except ErrorKind DiceResult)) : List DiceResult :=
  rolls.filterMap (fun r => match r with | .error _ => none | .ok v => some v)

/-- `seq.iter().sum::<u16>()`: the aggregate of one sub-roll, with `u16`
wrap-around. -/
def u16sum (l : List Nat) : Nat := l.foldl (· + ·) 0 % 65536

/-- The per-sub-roll aggregates (`results` in the source). -/
def aggregates (rolls : List (Except ErrorKind DiceResult)) : List Nat :=
  (rollOks rolls).map (fun r => u16sum r.seq)

/-- The operator list after the implicit leading `Add` is prepended when one
fewer operator than dice was written. -/
def padOps (rolls : List (Except ErrorKind DiceResult)) (ops : List DiceArithmeticOp) :
    List DiceArithmeticOp :=
  if ops.length < (aggregates rolls).length then DiceArithmeticOp.Add :: ops else ops

/-- One step of the `f64` fold of `CompoundDiceRoll::result`. -/
def floatStep (acc : Rat) (p : Nat × DiceArithmeticOp) : Rat :=
  match p.2 with
  | .Add => acc + (p.1 : Rat)
  | .Subtract => acc - (p.1 : Rat)
  | .Multiply => acc * (p.1 : Rat)
  | .Divide => acc / (p.1 : Rat)

/-- One step of the `i32` fold of `CompoundDiceRoll::result` (the `Divide`
arm is unreachable there, guarded by `has_divide`). -/
def intStep (acc : Int) (p : Nat × DiceArithmeticOp) : Int :=
  match p.2 with
  | .Add => wrap32 (acc + (p.1 : Int))
  | .Subtract => wrap32 (acc - (p.1 : Int))
  | .Multiply => wrap32 (acc * (p.1 : Int))
  | .Divide => acc

/-- `CompoundDiceRoll::result`, applied to the already-awaited sub-roll
outcomes (in input order) and the parsed operator list. -/
def compoundResult (rolls : List (Except ErrorKind DiceResult))
    (ops : List DiceArithmeticOp) : Except ErrorKind (List DiceResult × RollNumber) :=
  if 0 < (rollErrors rolls).length then
    (if (rollErrors rolls).length = 1 then
      .error ((rollErrors rolls).headD .CompoundDiceMultipleRollErrors)
     else .error .CompoundDiceMultipleRollErrors)
  else
    if (0, DiceArithmeticOp.Divide) ∈ (aggregates rolls).zip (padOps rolls ops) then
      .error .DiceExprDivisionByZero
    else
      .ok (rollOks rolls,
        if DiceArithmeticOp.Divide ∈ ops then
          RollNumber.Float (((aggregates rolls).zip (padOps rolls ops)).foldl floatStep 0)
        else RollNumber.Int (((aggregates rolls).zip (padOps rolls ops)).foldl intStep 0))

/-! ### The HTTP layer of the randomness source
(`process_randomorg_request` and the fallback of `call_randomorg`),
modelled at the level of the received response body. -/

/-- The outcome of the `reqwest::get` + `text()` pair: transport failure,
body-decoding failure, or a text body. -/
inductive HttpResponse
  | transportErr
  | textErr
  | ok (text : String)

/-- Split a character list at newline characters (the pieces of
`str::split('\n')`, before the trailing-piece fixups of `lines()`). -/
def splitLinesAux : List Char → List Char → List String
  | [], acc => [String.mk acc.reverse]
  | c :: cs, acc =>
    if c = '\n' then String.mk acc.reverse :: splitLinesAux cs []
    else splitLinesAux cs (c :: acc)

/-- Rust `str::lines()`: split on `\n`, drop the final empty piece produced
by a trailing newline, strip a trailing `\r` from each line. -/
def rustLines (s : String) : List String :=
  if s.data.isEmpty then []
  else
    (if s.data.getLast? = some '\n'
     then (splitLinesAux s.data []).dropLast
     else splitLinesAux s.data []).map
      (fun p => if p.data.getLast? = some '\r' then String.mk p.data.dropLast else p)

/-- The body handling of `process_randomorg_request`: first character must
be an ASCII digit, every line must parse as a `u16`.  Note that the only
per-line validation is `parse::<u16>()`: there is no check against the
requested `[min, max]` range. -/
def processBody (text : String) : Except ErrorKind (List Nat) :=
  if startsWithDigit text then
    (if ((rustLines text).map rustParseU16).any (fun r => r.isNone) then
      .error .RandomOrgOutOfRange
     else .ok (((rustLines text).map rustParseU16).filterMap id))
  else .error .RandomOrgInvalidResponse

/-- `process_randomorg_request`, applied to the received response. -/
def process_randomorg_request : HttpResponse → Except ErrorKind (List Nat)
  | .transportErr => .error .RandomOrgUnreachable
  | .textErr => .error .RandomOrgInvalidResponse
  | .ok text => processBody text

/-- `call_randomorg` at the HTTP level: oracle reply on success, local PRNG
fallback (`rng.random_range(min..=max)`, always in range) on failure. -/
def call_randomorg_http (num max min : Nat) (resp : HttpResponse) (rng : Nat → Nat) :
    List Nat × Bool :=
  match process_randomorg_request resp with
  | .ok seq => (seq, true)
  | .error _ => ((List.range num).map (fun j => min + rng j % (max + 1 - min)), false)

/-! ### Concrete environments and spec-side reference definitions -/

/-- An environment whose first replies are the given oracle value lists and
whose later requests fall back to the PRNG (raw draws `0`). -/
def mkEnv (rs : List (List Nat)) : Env :=
  ⟨fun i => (rs[i]?).map (fun l => fun j => l.getD j 0), fun _ _ => 0⟩

/-- The sequence length the specification's property §8.1 predicts for each
die kind (`K` being the first op argument for Keep/KeepLow). -/
def expectedLen (d : Dice) : Nat :=
  match d.kind with
  | .Keep | .KeepLow => d.args.headD 0
  | _ => d.amount

/-- The kinds covered by the amended length claim: Drop/DropHigh are
excluded by the drop bug, Explode/ExplodingSuccess append extra dice and
are not part of the claim. -/
def lenKindOk (k : DieKind) : Prop :=
  k ≠ .Drop ∧ k ≠ .DropHigh ∧ k ≠ .Explode ∧ k ≠ .ExplodingSuccess

instance (k : DieKind) : Decidable (lenKindOk k) := by
  unfold lenKindOk; infer_instance

/-- Reference evaluator following the spec's words (§4.5 Folding): strictly
left-associative accumulation of the aggregate/operator pairs from a zero
start, with no operator precedence — `i32` version. -/
def specFoldInt : Int → List (Nat × DiceArithmeticOp) → Int
  | acc, [] => acc
  | acc, p :: rest => specFoldInt (intStep acc p) rest

/-- Reference evaluator following the spec's words (§4.5 Folding) — `f64`
(modelled as `Rat`) version. -/
def specFoldFloat : Rat → List (Nat × DiceArithmeticOp) → Rat
  | acc, [] => acc
  | acc, p :: rest => specFoldFloat (floatStep acc p) rest

/-! ## Claim theorems -/

/-- C1 (code bug): for the Drop roll `4d6d1` with rolled sequence
`[6, 2, 4, 5]`, the claim demands the `K = 1` lowest value removed and
`[6, 4, 5]` returned; the source instead collects losing-side values and
`break`s after `K` winning-side values, returning the empty sequence here
(length `0`, not `amount − K = 3`). -/
theorem c1_drop_bug :
    Dice.roll 0 ⟨4, 6, .Drop, [1]⟩ (mkEnv [[6, 2, 4, 5]]) 0 = .ok (⟨[], true, none⟩, 1)
    ∧ ([] : List Nat).length ≠ 4 - 1 ∧ [6, 4, 5] ≠ ([] : List Nat) := by
  refine ⟨by decide, by decide, by decide⟩

/-- C2 (code bug): the claim says an `Explode`/`Open` dice without a depth
argument gets `u16::MAX` as default, and an `ExplodingSuccess` given only
its threshold gets `u16::MAX` inserted as depth.  The source backfills only
when `args.len() == 1` (resp. `== 2`), so `"2d6e"` parses with `args = []`
and `"2d6es3"` with `args = [3]`, and rolling either panics on the missing
argument index. -/
theorem c2_default_args_bug :
    Dice.parse "2d6e" = .ok ⟨2, 6, .Explode, []⟩
    ∧ Dice.parse "2d6es3" = .ok ⟨2, 6, .ExplodingSuccess, [3]⟩
    ∧ Dice.roll 0 ⟨2, 6, .Explode, []⟩ (mkEnv []) 0 = .error .panic
    ∧ Dice.roll 0 ⟨2, 6, .ExplodingSuccess, [3]⟩ (mkEnv []) 0 = .error .panic := by
  refine ⟨by decide, by decide, by decide, by decide⟩

/-- C3 (code bug): a bare integer one past `u16::MAX` fails the whole-string
`u16` parse, leaves no alphabetic token, and `Dice::parse` panics indexing
`ids[0]` on an empty vector instead of returning
`DiceStringNumberTooLarge`; an oversized numeric run elsewhere in the
string is reported as the claim states. -/
theorem c3_bare_overflow_panics :
    Dice.parse "65536" = .error .panic
    ∧ Dice.parse "2d99999" = .error (.e .DiceStringNumberTooLarge) := by
  refine ⟨by decide, by decide⟩

/-- C5 (code bug): in the low-trigger branch of `open_ended`, the first
accumulator update subtracts the fresh draw from `0` in `u16`: for
`1d20oe5` (low `5`, implicit high `16`) with first roll `3` and follow-up
draw `7`, the update computes `0 - 7`, which underflows and wraps to
`65529` (release mode; a debug build aborts), an element far above
`sides = 20` and not the claimed well-defined non-negative value. -/
theorem c5_open_ended_underflow :
    Dice.roll 9 ⟨1, 20, .OpenEndedImplicit, [5]⟩ (mkEnv [[3], [7]]) 0
      = .ok (⟨[65529], true, none⟩, 2)
    ∧ u16sub 0 7 = 65529 ∧ (0 : Int) - 7 < 0 := by
  refine ⟨by decide, by decide, by decide⟩

/-- C4 (counterexample): a bare integer literal is returned by the
early-exit branch of `Dice::parse` before the hard-limit checks, so
`"100"` yields a `Dice` with `amount = 100 > 50`. -/
theorem c4_bare_literal_exceeds_limits :
    Dice.parse "100" = .ok ⟨100, 1, .Regular, []⟩ ∧ ¬(100 ≤ 50) := by
  refine ⟨by decide, by decide⟩

/-- C4 (amended): every `Dice` successfully returned by `Dice::parse`
either comes from the bare-integer branch (any `u16` amount, `sides = 1`)
or satisfies `amount ≤ 50` and `sides ≤ 1000`; inputs exceeding the limits
on the main path are rejected with `DiceAmountTooLarge` (checked first)
resp. `DiceTooManySides`. -/
theorem limitCheck_ok (amount sides : Nat) (kind : DieKind) (args : List Nat) (d : Dice)
    (h : limitCheck amount sides kind args = .ok d) : d.amount ≤ 50 ∧ d.sides ≤ 1000 := by
  unfold limitCheck at h
  split at h
  · exact Except.noConfusion h
  · split at h
    · exact Except.noConfusion h
    · cases h
      constructor
      · show amount ≤ 50
        omega
      · show sides ≤ 1000
        omega

/-- Witness for `limitCheck_ok` at a concrete in-limits input. -/
theorem limitCheck_ok_witness :
    (⟨2, 6, .Regular, []⟩ : Dice).amount ≤ 50 ∧ (⟨2, 6, .Regular, []⟩ : Dice).sides ≤ 1000 :=
  limitCheck_ok 2 6 .Regular [] _ (by decide)

theorem c4_limits_amended :
    (∀ (text : String) (d : Dice), Dice.parse text = .ok d →
      (d.sides = 1 ∧ rustParseU16 text = some d.amount)
      ∨ (d.amount ≤ 50 ∧ d.sides ≤ 1000))
    ∧ Dice.parse "100d6" = .error (.e .DiceAmountTooLarge)
    ∧ Dice.parse "2d2000" = .error (.e .DiceTooManySides) := by
  refine ⟨?_, by decide, by decide⟩
  intro text d h
  unfold Dice.parse at h
  split at h
  · exact Except.noConfusion h
  · split at h
    next number heq =>
      cases h
      exact Or.inl ⟨rfl, heq⟩
    next =>
      split at h
      · exact Except.noConfusion h
      · unfold parseOps at h
        repeat' first
          | exact Except.noConfusion h
          | exact Or.inr (limitCheck_ok _ _ _ _ _ (by unfold parseTail at h; exact h))
          | split at h

/-- C4 witness for the amended universal statement, at input `"2d6"`. -/
theorem c4_limits_amended_witness :
    ((⟨2, 6, .Regular, []⟩ : Dice).sides = 1
      ∧ rustParseU16 "2d6" = some (⟨2, 6, .Regular, []⟩ : Dice).amount)
    ∨ ((⟨2, 6, .Regular, []⟩ : Dice).amount ≤ 50 ∧ (⟨2, 6, .Regular, []⟩ : Dice).sides ≤ 1000) :=
  c4_limits_amended.1 "2d6" ⟨2, 6, .Regular, []⟩ (by decide)

theorem rustParseU16_lt (s : String) (n : Nat) (h : rustParseU16 s = some n) : n < 65536 := by
  unfold rustParseU16 at h
  split at h
  · split at h
    · cases h
      omega
    · exact Option.noConfusion h
  · exact Option.noConfusion h

/-- Witness for `rustParseU16_lt` at input `"7000"`. -/
theorem rustParseU16_lt_witness : 7000 < 65536 :=
  rustParseU16_lt "7000" 7000 (by decide)

/-- C6 (counterexample): the oracle reply `"7000"` to a request with range
`[1, 6]` parses as a `u16` and is accepted — no `[lo, hi]` range check
exists — so the fetch returns `([7000], true)` and a Regular `1d6` roll can
contain `7000 ∉ [1, 6]`. -/
theorem c6_range_not_checked :
    call_randomorg_http 1 6 1 (.ok "7000") (fun _ => 0) = ([7000], true)
    ∧ Dice.roll 0 ⟨1, 6, .Regular, []⟩ (mkEnv [[7000]]) 0 = .ok (⟨[7000], true, none⟩, 1)
    ∧ ¬(7000 ≤ 6) := by
  refine ⟨by decide, by decide, by decide⟩

/-- C6 (amended): the fetch treats transport errors, non-digit-leading
bodies and lines that fail the `u16` parse (in particular values `≥ 2^16`)
as failures; values that fit in `u16` are accepted without any `[lo, hi]`
check.  Hence every accepted oracle value fits in `u16`, and every value
produced by the PRNG fallback lies in the requested `[lo, hi]`. -/
theorem c6_fetch_amended :
    (∀ (resp : HttpResponse) (vs : List Nat),
      process_randomorg_request resp = .ok vs → ∀ v ∈ vs, v < 65536)
    ∧ (∀ (num mx mn : Nat) (resp : HttpResponse) (rng : Nat → Nat), mn ≤ mx →
        (call_randomorg_http num mx mn resp rng).2 = false →
        ∀ v ∈ (call_randomorg_http num mx mn resp rng).1, mn ≤ v ∧ v ≤ mx) := by
  constructor
  · intro resp vs h v hv
    cases resp with
    | transportErr =>
      simp only [process_randomorg_request] at h
      exact Except.noConfusion h
    | textErr =>
      simp only [process_randomorg_request] at h
      exact Except.noConfusion h
    | ok text =>
      simp only [process_randomorg_request] at h
      unfold processBody at h
      split at h
      · split at h
        · exact Except.noConfusion h
        · cases h
          rw [List.mem_filterMap] at hv
          obtain ⟨o, ho, hid⟩ := hv
          rw [List.mem_map] at ho
          obtain ⟨line, _, hparse⟩ := ho
          cases o with
          | none => exact Option.noConfusion hid
          | some w =>
            cases hid
            exact rustParseU16_lt line v hparse
      · exact Except.noConfusion h
  · intro num mx mn resp rng hle hfalse v hv
    unfold call_randomorg_http at hfalse hv
    cases hp : process_randomorg_request resp with
    | ok seq =>
      rw [hp] at hfalse
      simp at hfalse
    | error err =>
      rw [hp] at hv
      simp only [List.mem_map, List.mem_range] at hv
      obtain ⟨j, _, rfl⟩ := hv
      have hmod : rng j % (mx + 1 - mn) < mx + 1 - mn := Nat.mod_lt _ (by omega)
      omega

/-- C6 witness for the amended statement: part 1 at the reply `"7000"`,
part 2 at a failed request with range `[1, 6]` and raw draw `9`
(fallback value `1 + 9 % 6 = 4`). -/
theorem c6_fetch_amended_witness : 7000 < 65536 ∧ (1 ≤ 4 ∧ 4 ≤ 6) :=
  ⟨c6_fetch_amended.1 (.ok "7000") [7000] (by decide) 7000 (by decide),
   c6_fetch_amended.2 1 6 1 .transportErr (fun _ => 9) (by decide) (by decide) 4 (by decide)⟩

theorem call_randomorg_length (num mx mn : Nat) (env : Env) (i : Nat) :
    (call_randomorg num mx mn env i).1.length = num := by
  unfold call_randomorg
  cases env.oracle i <;> simp

theorem call_randomorg_flag (num mx mn : Nat) (env : Env) (i : Nat) :
    (call_randomorg num mx mn env i).2 = (env.oracle i).isSome := by
  unfold call_randomorg
  cases env.oracle i <;> simp

theorem explodeLoop_le (sides : Nat) (env : Env) (fuel : Nat) :
    ∀ (seq last : List Nat) (truly : Bool) (i : Nat),
      i ≤ (explodeLoop sides env fuel seq last truly i).2.2 := by
  induction fuel with
  | zero => intro seq last truly i; exact Nat.le_refl i
  | succ n ih =>
    intro seq last truly i
    simp only [explodeLoop]
    split
    · exact Nat.le_refl i
    · exact Nat.le_trans (Nat.le_succ i) (ih _ _ _ _)

theorem explodeLoop_flag (sides : Nat) (env : Env) (fuel : Nat) :
    ∀ (seq last : List Nat) (truly : Bool) (i : Nat),
      ((explodeLoop sides env fuel seq last truly i).2.1 = true ↔
        (truly = true ∧ ∀ j, i ≤ j →
          j < (explodeLoop sides env fuel seq last truly i).2.2 →
          (env.oracle j).isSome = true)) := by
  induction fuel with
  | zero =>
    intro seq last truly i
    show truly = true ↔ truly = true ∧ ∀ j, i ≤ j → j < i → (env.oracle j).isSome = true
    constructor
    · intro h
      exact ⟨h, fun j h1 h2 => absurd h2 (by omega)⟩
    · exact fun h => h.1
  | succ n ih =>
    intro seq last truly i
    simp only [explodeLoop]
    split
    · show truly = true ↔ truly = true ∧ ∀ j, i ≤ j → j < i → (env.oracle j).isSome = true
      constructor
      · intro h
        exact ⟨h, fun j h1 h2 => absurd h2 (by omega)⟩
      · exact fun h => h.1
    · rw [ih]
      have hle := explodeLoop_le sides env n
        (seq ++ (call_randomorg (last.countP fun x => decide (x = sides)) sides 1 env i).1)
        ((call_randomorg (last.countP fun x => decide (x = sides)) sides 1 env i).1)
        (truly && (call_randomorg (last.countP fun x => decide (x = sides)) sides 1 env i).2)
        (i + 1)
      have hflag := call_randomorg_flag (last.countP fun x => decide (x = sides)) sides 1 env i
      rw [Bool.and_eq_true]
      constructor
      · rintro ⟨⟨ht, hr⟩, hall⟩
        refine ⟨ht, fun j h1 h2 => ?_⟩
        rcases Nat.lt_or_ge j (i + 1) with hj | hj
        · have : j = i := by omega
          subst this
          rw [← hflag]
          exact hr
        · exact hall j hj h2
      · rintro ⟨ht, hall⟩
        refine ⟨⟨ht, ?_⟩, fun j h1 h2 => hall j (by omega) h2⟩
        rw [hflag]
        exact hall i (Nat.le_refl i) (by omega)

/-- C7 (counterexample): `DiceResult::zero()` sets `truly_random = false`,
so a roll that issues zero randomness requests because `amount == 0` has
`truly_random = false`, not `true` as the claim states. -/
theorem c7_zero_roll_pseudo :
    Dice.roll 0 ⟨0, 6, .Regular, []⟩ (mkEnv []) 0 = .ok (DiceResult.zero, 0)
    ∧ DiceResult.zero.truly_random = false := by
  refine ⟨by decide, by decide⟩

/-- C7 (amended): a roll short-circuited by `amount == 0` or `sides == 0`
returns `DiceResult::zero()` with `truly_random = false`; otherwise the
flag is the conjunction of the provenance of every request the roll issued
— shown here for the claim's cited `Dice::explode` (an `Explode` roll's
flag is true iff all of its requests, the initial batch and every
explosion batch, were served by the oracle), so one fallback among them
makes it false. -/
theorem c7_truly_random_amended :
    (∀ (fuel : Nat) (d : Dice) (env : Env) (i : Nat), d.amount = 0 ∨ d.sides = 0 →
      Dice.roll fuel d env i = .ok (⟨[], false, none⟩, i))
    ∧ (∀ (d : Dice) (env : Env) (i : Nat) (res : DiceResult) (i2 : Nat),
        d.kind = .Explode → Dice.explode d env i = .ok (res, i2) →
        (res.truly_random = true ↔
          ∀ j, i ≤ j → j < i2 → (env.oracle j).isSome = true)) := by
  constructor
  · intro fuel d env i h
    unfold Dice.roll
    rw [if_pos h]
    rfl
  · intro d env i res i2 hk h
    unfold Dice.explode at h
    rw [hk] at h
    simp only [reduceCtorEq, if_neg, false_and, if_false] at h
    split at h
    · exact Except.noConfusion h
    · split at h
      · exact Except.noConfusion h
      · next limit heq =>
          cases h
          have hle := explodeLoop_le d.sides env limit
            (call_randomorg d.amount d.sides 1 env i).1
            (call_randomorg d.amount d.sides 1 env i).1
            (call_randomorg d.amount d.sides 1 env i).2 (i + 1)
          have hiff := explodeLoop_flag d.sides env limit
            (call_randomorg d.amount d.sides 1 env i).1
            (call_randomorg d.amount d.sides 1 env i).1
            (call_randomorg d.amount d.sides 1 env i).2 (i + 1)
          have hflag := call_randomorg_flag d.amount d.sides 1 env i
          refine Iff.trans hiff (Iff.intro ?_ ?_)
          · rintro ⟨hr, hall⟩ j h1 h2
            rcases Nat.lt_or_ge j (i + 1) with hj | hj
            · have hj0 : j = i := by omega
              subst hj0
              rw [← hflag]
              exact hr
            · exact hall j hj h2
          · intro hall
            refine ⟨?_, fun j h1 h2 => hall j (by omega) h2⟩
            rw [hflag]
            exact hall i (Nat.le_refl i) (by omega)

/-- C7 witness: the zero part at `amount = 0`, and the explode part at
`1d6e65535` with oracle batches `[6], [6], [3]` (all served, flag true). -/
theorem c7_truly_random_amended_witness :
    Dice.roll 0 ⟨0, 1, .Regular, []⟩ (mkEnv []) 0 = .ok (⟨[], false, none⟩, 0)
    ∧ (⟨[6, 6, 3], true, none⟩ : DiceResult).truly_random = true :=
  ⟨c7_truly_random_amended.1 0 ⟨0, 1, .Regular, []⟩ (mkEnv []) 0 (Or.inl rfl),
   (c7_truly_random_amended.2 ⟨1, 6, .Explode, [65535]⟩ (mkEnv [[6], [6], [3]]) 0
      ⟨[6, 6, 3], true, none⟩ 3 rfl (by decide)).mpr
     (fun j _ hj =>
       (by decide : ∀ j < 3, ((mkEnv [[6], [6], [3]]).oracle j).isSome = true) j hj)⟩

/-- C9: in `CompoundDiceRoll::result`, one failed sub-roll returns that
error verbatim, two or more return `CompoundDiceMultipleRollErrors`, and —
with every sub-roll successful — a zero aggregate paired (after the
implicit-`Add` padding) with `Divide` returns `DiceExprDivisionByZero`
instead of any total. -/
theorem c9_compound_errors :
    ∀ (rolls : List (Except ErrorKind DiceResult)) (ops : List DiceArithmeticOp),
      (∀ e, rollErrors rolls = [e] → compoundResult rolls ops = .error e)
      ∧ (2 ≤ (rollErrors rolls).length →
          compoundResult rolls ops = .error .CompoundDiceMultipleRollErrors)
      ∧ (rollErrors rolls = [] →
          (0, DiceArithmeticOp.Divide) ∈ (aggregates rolls).zip (padOps rolls ops) →
          compoundResult rolls ops = .error .DiceExprDivisionByZero) := by
  intro rolls ops
  refine ⟨?_, ?_, ?_⟩
  · intro e he
    unfold compoundResult
    rw [he]
    simp
  · intro h2
    unfold compoundResult
    rw [if_pos (by omega), if_neg (by omega)]
  · intro he hmem
    unfold compoundResult
    rw [he]
    simp only [List.length_nil, Nat.lt_irrefl, if_false]
    rw [if_pos hmem]

/-- C9 witness: one error verbatim, two errors collapsed, and a division
by a zero aggregate, each at concrete sub-roll outcomes. -/
theorem c9_compound_errors_witness :
    compoundResult [.error .DiceExprInvalidSides, .ok ⟨[5], true, none⟩] [.Add]
      = .error .DiceExprInvalidSides
    ∧ compoundResult [.error .DiceExprInvalidSides, .error .DiceAmountTooLarge] [.Add]
      = .error .CompoundDiceMultipleRollErrors
    ∧ compoundResult [.ok ⟨[7], true, none⟩, .ok ⟨[], false, none⟩] [.Divide]
      = .error .DiceExprDivisionByZero :=
  ⟨(c9_compound_errors [.error .DiceExprInvalidSides, .ok ⟨[5], true, none⟩] [.Add]).1
      .DiceExprInvalidSides (by decide),
   (c9_compound_errors [.error .DiceExprInvalidSides, .error .DiceAmountTooLarge] [.Add]).2.1
      (by decide),
   (c9_compound_errors [.ok ⟨[7], true, none⟩, .ok ⟨[], false, none⟩] [.Divide]).2.2
      (by decide) (by decide)⟩

theorem specFoldInt_eq_foldl :
    ∀ (l : List (Nat × DiceArithmeticOp)) (acc : Int),
      specFoldInt acc l = l.foldl intStep acc := by
  intro l
  induction l with
  | nil => intro acc; rfl
  | cons p rest ih =>
    intro acc
    rw [specFoldInt, List.foldl_cons, ih]

theorem specFoldFloat_eq_foldl :
    ∀ (l : List (Nat × DiceArithmeticOp)) (acc : Rat),
      specFoldFloat acc l = l.foldl floatStep acc := by
  intro l
  induction l with
  | nil => intro acc; rfl
  | cons p rest ih =>
    intro acc
    rw [specFoldFloat, List.foldl_cons, ih]

/-- C10: on a fully successful compound roll with no zero-divide pair, the
total equals the spec's reference evaluator — the strictly left-associative
fold of the aggregate/operator pairs from a zero accumulator (with `Add`
prepended when one fewer operator than dice was written) — and it is
`Float` exactly when the written operators contain `Divide`, `Int`
otherwise.  The concrete conjunct shows the absence of precedence:
`2 + 3 * 4` evaluates to `(0 + 2 + 3) * 4 = 20`, not `14`. -/
theorem c10_fold_structure :
    (∀ (rolls : List (Except ErrorKind DiceResult)) (ops : List DiceArithmeticOp),
      rollErrors rolls = [] →
      (0, DiceArithmeticOp.Divide) ∉ (aggregates rolls).zip (padOps rolls ops) →
      compoundResult rolls ops = .ok (rollOks rolls,
        if DiceArithmeticOp.Divide ∈ ops then
          RollNumber.Float (specFoldFloat 0 ((aggregates rolls).zip (padOps rolls ops)))
        else RollNumber.Int (specFoldInt 0 ((aggregates rolls).zip (padOps rolls ops))))
      ∧ ((∃ q, compoundResult rolls ops = .ok (rollOks rolls, RollNumber.Float q)) ↔
          DiceArithmeticOp.Divide ∈ ops))
    ∧ compoundResult [.ok ⟨[2], true, none⟩, .ok ⟨[3], true, none⟩, .ok ⟨[4], true, none⟩]
        [.Add, .Multiply]
        = .ok ([⟨[2], true, none⟩, ⟨[3], true, none⟩, ⟨[4], true, none⟩], .Int 20)
    ∧ (2 + 3 * 4 : Int) ≠ 20 := by
  refine ⟨?_, by decide, by decide⟩
  intro rolls ops he hmem
  have hres : compoundResult rolls ops = .ok (rollOks rolls,
      if DiceArithmeticOp.Divide ∈ ops then
        RollNumber.Float (specFoldFloat 0 ((aggregates rolls).zip (padOps rolls ops)))
      else RollNumber.Int (specFoldInt 0 ((aggregates rolls).zip (padOps rolls ops)))) := by
    unfold compoundResult
    rw [he]
    simp only [List.length_nil, Nat.lt_irrefl, if_false]
    rw [if_neg hmem, specFoldInt_eq_foldl, specFoldFloat_eq_foldl]
  refine ⟨hres, ?_, ?_⟩
  · rintro ⟨q, hq⟩
    by_contra hnd
    rw [hres, if_neg hnd] at hq
    simp at hq
  · intro hd
    exact ⟨specFoldFloat 0 ((aggregates rolls).zip (padOps rolls ops)),
      by rw [hres, if_pos hd]⟩

/-- C10 witness: a compound roll `6 / 4` (implicit leading `Add`), fully
successful, evaluated through the theorem. -/
theorem c10_fold_structure_witness :
    compoundResult [.ok ⟨[6], true, none⟩, .ok ⟨[4], true, none⟩] [.Divide]
      = .ok ([⟨[6], true, none⟩, ⟨[4], true, none⟩],
          if DiceArithmeticOp.Divide ∈ [DiceArithmeticOp.Divide] then
            RollNumber.Float (specFoldFloat 0
              ((aggregates [.ok ⟨[6], true, none⟩, .ok ⟨[4], true, none⟩]).zip
                (padOps [.ok ⟨[6], true, none⟩, .ok ⟨[4], true, none⟩] [.Divide])))
          else RollNumber.Int (specFoldInt 0
              ((aggregates [.ok ⟨[6], true, none⟩, .ok ⟨[4], true, none⟩]).zip
                (padOps [.ok ⟨[6], true, none⟩, .ok ⟨[4], true, none⟩] [.Divide])))) :=
  (c10_fold_structure.1 [.ok ⟨[6], true, none⟩, .ok ⟨[4], true, none⟩] [.Divide]
    (by decide) (by decide)).1

theorem getIdx_zero_headD (l : List Nat) (v : Nat) (h : getIdx l 0 = .ok v) :
    l.headD 0 = v := by
  unfold getIdx at h
  cases l with
  | nil => exact Except.noConfusion h
  | cons a as =>
    simp only [List.getElem?_cons_zero] at h
    cases h
    rfl

theorem getIdx_ok (l : List Nat) (n : Nat) (v : Nat) (h : getIdx l n = .ok v) :
    ∃ hn : n < l.length, l.get ⟨n, hn⟩ = v := by
  unfold getIdx at h
  split at h
  · next w heq =>
      cases h
      have hn := List.getElem?_eq_some.1 heq
      obtain ⟨hlt, hv⟩ := hn
      exact ⟨hlt, by rw [List.get_eq_getElem, hv]⟩
  · exact Except.noConfusion h

theorem regular_len (d : Dice) (env : Env) (i : Nat) (res : DiceResult) (i2 : Nat)
    (hs : 2 ≤ d.sides) (h : d.regular env i = .ok (res, i2)) :
    res.seq.length = d.amount := by
  simp only [Dice.regular] at h
  split at h
  · exact Except.noConfusion h
  · next thr heq =>
      split at h
      · exact Except.noConfusion h
      · split at h
        · omega
        · cases h
          exact call_randomorg_length d.amount d.sides thr env i

theorem success_len (d : Dice) (env : Env) (i : Nat) (res : DiceResult) (i2 : Nat)
    (hs : 2 ≤ d.sides) (ht : d.args.headD 0 ≤ d.sides)
    (h : d.success env i = .ok (res, i2)) : res.seq.length = d.amount := by
  simp only [Dice.success] at h
  split at h
  · exact Except.noConfusion h
  · next thr heq =>
      rw [getIdx_zero_headD _ _ heq] at ht
      split at h
      · omega
      · split at h
        · omega
        · cases h
          exact call_randomorg_length d.amount d.sides 1 env i

theorem bounded_len (d : Dice) (env : Env) (i : Nat) (res : DiceResult) (i2 : Nat)
    (hs : 2 ≤ d.sides) (h : d.bounded env i = .ok (res, i2)) :
    res.seq.length = d.amount := by
  simp only [Dice.bounded] at h
  repeat' first
    | exact Except.noConfusion h
    | omega
    | (cases h; simp [List.length_map, call_randomorg_length])
    | split at h

theorem rerollWalk_length (choose : Bool) (t : Nat) :
    ∀ (xs rs out : List Nat), rerollWalk choose t xs rs = .ok out →
      out.length = xs.length := by
  intro xs
  induction xs with
  | nil =>
    intro rs out h
    cases h
    rfl
  | cons x xs ih =>
    intro rs out h
    unfold rerollWalk at h
    split at h
    · split at h
      · exact Except.noConfusion h
      · split at h
        · exact Except.noConfusion h
        · next rest heq =>
            cases h
            simp [ih _ _ heq]
    · split at h
      · exact Except.noConfusion h
      · next rest heq =>
          cases h
          simp [ih _ _ heq]

theorem reroll_len (d : Dice) (env : Env) (i : Nat) (res : DiceResult) (i2 : Nat)
    (hs : 2 ≤ d.sides) (h : d.reroll_once env i = .ok (res, i2)) :
    res.seq.length = d.amount := by
  simp only [Dice.reroll_once] at h
  split at h
  · exact Except.noConfusion h
  · next thr heq =>
      split at h
      · exact Except.noConfusion h
      · split at h
        · omega
        · split at h
          · cases h
            exact call_randomorg_length d.amount d.sides 1 env i
          · split at h
            · exact Except.noConfusion h
            · next resultSeq heqW =>
                cases h
                rw [rerollWalk_length _ _ _ _ _ heqW, call_randomorg_length]

theorem openAll_length (sides limit : Nat) (env : Env) :
    ∀ (vs : List Nat) (truly : Bool) (i : Nat),
      (openAll sides limit env vs truly i).1.length = vs.length := by
  intro vs
  induction vs with
  | nil => intro truly i; rfl
  | cons v vs ih =>
    intro truly i
    simp only [openAll]
    simp [ih]

theorem open_len (d : Dice) (env : Env) (i : Nat) (res : DiceResult) (i2 : Nat)
    (h : d.openRoll env i = .ok (res, i2)) : res.seq.length = d.amount := by
  simp only [Dice.openRoll] at h
  split at h
  · exact Except.noConfusion h
  · split at h
    · exact Except.noConfusion h
    · cases h
      simp [openAll_length, call_randomorg_length]

theorem oeAll_length (sides low high fuel : Nat) (env : Env) :
    ∀ (vs : List Nat) (truly : Bool) (i : Nat) (out : List Nat × Bool × Nat),
      oeAll sides low high fuel env vs truly i = .ok out → out.1.length = vs.length := by
  intro vs
  induction vs with
  | nil =>
    intro truly i out h
    cases h
    rfl
  | cons v vs ih =>
    intro truly i out h
    simp only [oeAll] at h
    split at h
    · exact Except.noConfusion h
    · split at h
      · exact Except.noConfusion h
      · next rest heq =>
          cases h
          simp [ih _ _ _ heq]

theorem open_ended_len (fuel : Nat) (d : Dice) (env : Env) (i : Nat) (res : DiceResult)
    (i2 : Nat) (h : Dice.open_ended fuel d env i = .ok (res, i2)) :
    res.seq.length = d.amount := by
  simp only [Dice.open_ended] at h
  split at h
  · exact Except.noConfusion h
  · split at h
    · exact Except.noConfusion h
    · split at h
      · exact Except.noConfusion h
      · split at h
        · exact Except.noConfusion h
        · split at h
          · exact Except.noConfusion h
          · next out heq =>
              cases h
              rw [oeAll_length _ _ _ _ _ _ _ _ _ heq, call_randomorg_length]

theorem sorted_count_ge (l : List Nat) (hl : l.Pairwise (· ≤ ·)) :
    ∀ (m : Nat) (hm : m < l.length),
      l.length - m ≤ l.countP (fun v => decide (l.get ⟨m, hm⟩ ≤ v)) := by
  induction l with
  | nil => intro m hm; simp at hm
  | cons a as ih =>
    intro m hm
    cases m with
    | zero =>
      have hall : ∀ x ∈ a :: as, a ≤ x := by
        intro x hx
        rcases List.mem_cons.1 hx with rfl | hx
        · exact le_refl _
        · exact (List.pairwise_cons.1 hl).1 x hx
      have hcnt : (a :: as).countP (fun v => decide (a ≤ v)) = (a :: as).length := by
        rw [List.countP_eq_length]
        intro x hx
        exact decide_eq_true (hall x hx)
      have hg : (a :: as).get ⟨0, hm⟩ = a := rfl
      rw [hg]
      omega
    | succ m =>
      have hm2 : m < as.length := by simpa using hm
      have hih := ih (List.pairwise_cons.1 hl).2 m hm2
      have hg : (a :: as).get ⟨m + 1, hm⟩ = as.get ⟨m, hm2⟩ := rfl
      rw [hg, List.countP_cons]
      simp only [List.length_cons]
      omega

theorem sorted_count_le (l : List Nat) (hl : l.Pairwise (· ≤ ·)) :
    ∀ (m : Nat) (hm : m < l.length),
      m + 1 ≤ l.countP (fun v => decide (v ≤ l.get ⟨m, hm⟩)) := by
  induction l with
  | nil => intro m hm; simp at hm
  | cons a as ih =>
    intro m hm
    cases m with
    | zero =>
      have hg : (a :: as).get ⟨0, hm⟩ = a := rfl
      rw [hg, List.countP_cons]
      simp
    | succ m =>
      have hm2 : m < as.length := by simpa using hm
      have hih := ih (List.pairwise_cons.1 hl).2 m hm2
      have ha : a ≤ as.get ⟨m, hm2⟩ :=
        (List.pairwise_cons.1 hl).1 _ (as.get_mem _ _)
      have hg : (a :: as).get ⟨m + 1, hm⟩ = as.get ⟨m, hm2⟩ := rfl
      rw [hg, List.countP_cons, if_pos (decide_eq_true ha)]
      omega

theorem keepWalk_length (cond : Nat → Bool) (kc : Nat) :
    ∀ (l : List Nat) (kept : Nat), kept < kc → kc - kept ≤ l.countP cond →
      (keepWalk cond kc l kept).length = kc - kept := by
  intro l
  induction l with
  | nil =>
    intro kept h1 h2
    simp only [List.countP_nil] at h2
    omega
  | cons v vs ih =>
    intro kept h1 h2
    rw [List.countP_cons] at h2
    unfold keepWalk
    split
    · next hc =>
        split
        · next hkc =>
            simp only [List.length_cons, List.length_nil]
            omega
        · next hkc =>
            rw [if_pos hc] at h2
            have h1b : kept + 1 < kc := by omega
            have h2b : kc - (kept + 1) ≤ vs.countP cond := by omega
            simp only [List.length_cons, ih (kept + 1) h1b h2b]
            omega
    · next hc =>
        rw [if_neg hc] at h2
        split
        · next hkc => omega
        · next hkc => exact ih kept h1 (by omega)

theorem keep_len (d : Dice) (env : Env) (i : Nat) (res : DiceResult) (i2 : Nat)
    (hs : 2 ≤ d.sides) (h : d.keep env i = .ok (res, i2)) :
    res.seq.length = d.args.headD 0 := by
  simp only [Dice.keep] at h
  split at h
  · exact Except.noConfusion h
  · next kc heqK =>
      split at h
      · exact Except.noConfusion h
      · split at h
        · omega
        · split at h
          · exact Except.noConfusion h
          · next thr heqT =>
              cases h
              dsimp only
              rw [getIdx_zero_headD _ _ heqK]
              by_cases hkl : d.kind = DieKind.KeepLow
              · rw [if_pos hkl] at heqT
                split at heqT
                · exact Except.noConfusion heqT
                · next hkc0 =>
                    obtain ⟨hlt, hget⟩ := getIdx_ok _ _ _ heqT
                    have hcs := sorted_count_le _
                      (List.sorted_insertionSort (· ≤ ·)
                        (call_randomorg d.amount d.sides 1 env i).1) (kc - 1) hlt
                    rw [hget] at hcs
                    have hp := (List.perm_insertionSort (· ≤ ·)
                      (call_randomorg d.amount d.sides 1 env i).1).countP_eq
                      (fun v => decide (v ≤ thr))
                    have hcond : (fun v =>
                        if d.kind = DieKind.KeepLow then decide (v ≤ thr)
                        else decide (thr ≤ v)) = fun v => decide (v ≤ thr) := by
                      funext v
                      rw [if_pos hkl]
                    rw [hcond]
                    have hwalk := keepWalk_length (fun v => decide (v ≤ thr)) kc
                      (call_randomorg d.amount d.sides 1 env i).1 0 (by omega) (by omega)
                    omega
              · rw [if_neg hkl] at heqT
                split at heqT
                · exact Except.noConfusion heqT
                · next hlen =>
                    obtain ⟨hlt, hget⟩ := getIdx_ok _ _ _ heqT
                    have hkc1 : 1 ≤ kc := by omega
                    have hcs := sorted_count_ge _
                      (List.sorted_insertionSort (· ≤ ·)
                        (call_randomorg d.amount d.sides 1 env i).1)
                      ((List.insertionSort (· ≤ ·)
                        (call_randomorg d.amount d.sides 1 env i).1).length - kc) hlt
                    rw [hget] at hcs
                    have hp := (List.perm_insertionSort (· ≤ ·)
                      (call_randomorg d.amount d.sides 1 env i).1).countP_eq
                      (fun v => decide (thr ≤ v))
                    have hcond : (fun v =>
                        if d.kind = DieKind.KeepLow then decide (v ≤ thr)
                        else decide (thr ≤ v)) = fun v => decide (thr ≤ v) := by
                      funext v
                      rw [if_neg hkl]
                    rw [hcond]
                    have hwalk := keepWalk_length (fun v => decide (thr ≤ v)) kc
                      (call_randomorg d.amount d.sides 1 env i).1 0 (by omega) (by omega)
                    omega

/-- C8 (counterexample): the claim's length table fails for `sides = 1`
(the degenerate closed forms return a single value: Regular `3d1` returns
`[3]`, length `1 ≠ 3`) and for Drop (the drop bug: `4d6d1` on
`[6, 2, 4, 5]` returns `[]`, length `0 ≠ 3`). -/
theorem c8_seq_length_counterexample :
    Dice.roll 0 ⟨3, 1, .Regular, []⟩ (mkEnv []) 0 = .ok (⟨[3], true, none⟩, 0)
    ∧ ([3] : List Nat).length ≠ 3
    ∧ Dice.roll 0 ⟨4, 6, .Drop, [1]⟩ (mkEnv [[6, 2, 4, 5]]) 0 = .ok (⟨[], true, none⟩, 1)
    ∧ ([] : List Nat).length ≠ 4 - 1 := by
  refine ⟨by decide, by decide, by decide, by decide⟩

/-- C8 (amended): for every `Dice` with `amount ≥ 1` and `sides ≥ 2` whose
kind is neither Drop/DropHigh (broken by the drop bug) nor
Explode/ExplodingSuccess (which append extra dice), and whose Success
threshold — when applicable — is at most `sides`, every successful
`roll` returns a sequence of the predicted length: `amount` for
Regular/Reroll/Success/RerollOnce*/Bounded/Open/OpenEnded/OpenEndedImplicit
and `K = args[0]` for Keep/KeepLow. -/
theorem c8_seq_length_amended :
    ∀ (d : Dice) (env : Env) (fuel i : Nat) (res : DiceResult) (i2 : Nat),
      1 ≤ d.amount → 2 ≤ d.sides → lenKindOk d.kind →
      (d.kind = .Success → d.args.headD 0 ≤ d.sides) →
      Dice.roll fuel d env i = .ok (res, i2) →
      res.seq.length = expectedLen d := by
  intro d env fuel i res i2 ha hs hkind hsucc h
  unfold Dice.roll at h
  rw [if_neg (by omega)] at h
  cases hk : d.kind with
  | Regular =>
    rw [hk] at h
    simp only [expectedLen, hk]
    exact regular_len d env i res i2 hs h
  | Reroll =>
    rw [hk] at h
    simp only [expectedLen, hk]
    exact regular_len d env i res i2 hs h
  | Success =>
    rw [hk] at h
    simp only [expectedLen, hk]
    exact success_len d env i res i2 hs (hsucc hk) h
  | Drop => rw [hk] at hkind; exact absurd rfl hkind.1
  | DropHigh => rw [hk] at hkind; exact absurd rfl hkind.2.1
  | Explode => rw [hk] at hkind; exact absurd rfl hkind.2.2.1
  | ExplodingSuccess => rw [hk] at hkind; exact absurd rfl hkind.2.2.2
  | Keep =>
    rw [hk] at h
    simp only [expectedLen, hk]
    exact keep_len d env i res i2 hs h
  | KeepLow =>
    rw [hk] at h
    simp only [expectedLen, hk]
    exact keep_len d env i res i2 hs h
  | RerollOnceAndKeep =>
    rw [hk] at h
    simp only [expectedLen, hk]
    exact reroll_len d env i res i2 hs h
  | RerollOnceAndChoose =>
    rw [hk] at h
    simp only [expectedLen, hk]
    exact reroll_len d env i res i2 hs h
  | Open =>
    rw [hk] at h
    simp only [expectedLen, hk]
    exact open_len d env i res i2 h
  | UpperBound =>
    rw [hk] at h
    simp only [expectedLen, hk]
    exact bounded_len d env i res i2 hs h
  | LowerBound =>
    rw [hk] at h
    simp only [expectedLen, hk]
    exact bounded_len d env i res i2 hs h
  | AddUpperBound =>
    rw [hk] at h
    simp only [expectedLen, hk]
    exact bounded_len d env i res i2 hs h
  | AddLowerBound =>
    rw [hk] at h
    simp only [expectedLen, hk]
    exact bounded_len d env i res i2 hs h
  | SubtractUpperBound =>
    rw [hk] at h
    simp only [expectedLen, hk]
    exact bounded_len d env i res i2 hs h
  | SubtractLowerBound =>
    rw [hk] at h
    simp only [expectedLen, hk]
    exact bounded_len d env i res i2 hs h
  | OpenEnded =>
    rw [hk] at h
    simp only [expectedLen, hk]
    exact open_ended_len fuel d env i res i2 h
  | OpenEndedImplicit =>
    rw [hk] at h
    simp only [expectedLen, hk]
    exact open_ended_len fuel d env i res i2 h

/-- C8 witness: a Regular `2d6` roll served by the PRNG fallback
(sequence `[1, 1]`), and a Keep `4d6k3` roll on oracle reply
`[6, 2, 4, 5]` (sequence `[6, 4, 5]`, length `K = 3`). -/
theorem c8_seq_length_amended_witness :
    (⟨[1, 1], false, none⟩ : DiceResult).seq.length = expectedLen ⟨2, 6, .Regular, []⟩
    ∧ (⟨[6, 4, 5], true, none⟩ : DiceResult).seq.length = expectedLen ⟨4, 6, .Keep, [3]⟩ :=
  ⟨c8_seq_length_amended ⟨2, 6, .Regular, []⟩ (mkEnv []) 0 0 ⟨[1, 1], false, none⟩ 1
      (by decide) (by decide) (by decide) (by decide) (by decide),
   c8_seq_length_amended ⟨4, 6, .Keep, [3]⟩ (mkEnv [[6, 2, 4, 5]]) 0 0
      ⟨[6, 4, 5], true, none⟩ 1
      (by decide) (by decide) (by decide) (by decide) (by decide)⟩

end Denede
